import Mathlib

/-!
Shallow embedding of `src/ssb_jordbruk_fagfunksjoner/produksjonstilskudd.py`.

The module defines two classes:
* `Produksjonskode` — a production code that validates its fields
  (`is_valid`) and appends itself to the class-level list
  `Produksjonskode._registry` when constructed;
* `Produksjonstilskudd` — a catalog object built from the registry, with the
  queries `get_codes` and `get_codes_by_measurement`.

The registry is modelled as explicit state: the constructor
`mkProduksjonskode` takes the current registry contents and returns the
construction result together with the registry contents afterwards.
Dynamically typed constructor arguments (the `groups` parameter can receive
any Python value at runtime) are modelled by the inductive `PyVal`.
Python exceptions are modelled by `Except` with the structured error type
`PyError`, one constructor per `raise` site.
-/

/-- Models a runtime Python value, as far as the validation code
distinguishes them: strings, ints, bools, None and lists.  These cover the
shapes the validation in `Produksjonskode.is_valid` branches on
(`isinstance(..., list)`, `isinstance(..., str)`) and Python truthiness. -/
inductive PyVal where
  | str (s : String)
  | intV (n : Int)
  | boolV (b : Bool)
  | noneV
  | listV (xs : List PyVal)

/-- Python truthiness (`if groups:` etc.): empty string, zero, False, None
and the empty list are falsy; everything else is truthy. -/
def pyTruthy : PyVal → Bool
  | .str s => !s.isEmpty
  | .intV n => n != 0
  | .boolV b => b
  | .noneV => false
  | .listV xs => !xs.isEmpty

/-- Whether the value is a Python `str` (`isinstance(v, str)`). -/
def PyVal.isStr : PyVal → Bool
  | .str _ => true
  | _ => false

/-- Whether the value is a Python `list` (`isinstance(v, list)`). -/
def PyVal.isList : PyVal → Bool
  | .listV _ => true
  | _ => false

/-- One constructor per `raise` site of the Python module, carrying the
values the raised message interpolates (the exact rendered message also
interpolates a Python `set`, whose element order is not deterministic, so
the message text itself is not modelled). -/
inductive PyError where
  /-- ValueError raised in `is_valid` naming the offending code string:
  the code is not exactly 3 digits (line 234). -/
  | invalidCode (offending : String)
  /-- TypeError raised in `is_valid` naming the type of the received
  groups value: groups must be a list (line 239). -/
  | invalidGroupsType (received : PyVal)
  /-- ValueError raised in `is_valid` listing the non-string elements of
  groups (line 243). -/
  | invalidGroupValues (offending : List PyVal)
  /-- ValueError raised in `is_valid` (line 248) and in
  `get_codes_by_measurement` (line 118) naming the received measurement
  unit, which is outside `VALID_MEASUREMENT_UNITS`. -/
  | invalidMeasurementUnit (received : String)
  /-- TypeError raised in `get_codes` (line 79) naming the type of a
  `categories` argument that is neither None nor a str nor a list. -/
  | invalidCategoriesType (received : PyVal)

/-- Models the Python equality test `g == v` where `g` is known to be a
string: a `str` compares equal only to an equal `str` (comparison with an
int, bool, None or list is False).  This is the element test performed by
`group in categories` at line 87, where `group` always comes from a
validated `groups` list and hence is a string. -/
def pyEqStr (g : String) : PyVal → Bool
  | .str t => g == t
  | _ => false

/-- Line 9: `VALID_MEASUREMENT_UNITS = {"antall", "dekar", "stykk", "kilo"}`.
The Python value is a set; only membership in it is ever used, so it is
modelled as the list of its elements. -/
def VALID_MEASUREMENT_UNITS : List String :=
  ["antall", "dekar", "stykk", "kilo"]

/-- Line 233: the fullmatch against the 3-digit regex — the string
consists of exactly three digits.  (Python `\d` also accepts non-ASCII Unicode decimal
digits; the embedding restricts attention to ASCII digits, which is the
only case the codebase, its data and the claims exercise.) -/
def fullmatch3 (code : String) : Bool :=
  code.length == 3 && code.toList.all Char.isDigit

/-- The fields of a constructed (hence validated) `Produksjonskode`
object, lines 210–218.  After validation succeeds, `groups` is known to be
a Python list of strings, so it is typed `List String` here. -/
structure Produksjonskode where
  code : String
  label : String
  description : String
  valid_from : Option String
  valid_to : Option String
  replaces : List String
  replaced_by : List String
  groups : List String
  measured_in : String
deriving DecidableEq

/-- Lines 224–250, `Produksjonskode.is_valid`, applied to the stored
fields: checks, in source order, that the code is exactly 3 digits, that
groups is a list, that every element of groups is a string, and that the
measurement unit is valid; the first failing check raises.  On success the
group strings are returned (validation guarantees every element is a
`PyVal.str`, so the `filterMap` extraction below is lossless). -/
def is_valid (code : String) (groups : PyVal) (measured_in : String) :
    Except PyError (List String) :=
  if fullmatch3 code then
    match groups with
    | .listV xs =>
        let invalid_values := xs.filter (fun v => !v.isStr)
        if invalid_values.isEmpty then
          if measured_in ∈ VALID_MEASUREMENT_UNITS then
            .ok (xs.filterMap (fun v => match v with | .str s => some s | _ => none))
          else
            .error (.invalidMeasurementUnit measured_in)
        else
          .error (.invalidGroupValues invalid_values)
    | g => .error (.invalidGroupsType g)
  else
    .error (.invalidCode code)

/-- Lines 183–222, `Produksjonskode.__init__`, with the class-level
`Produksjonskode._registry` made explicit: the constructor receives the
registry contents before the call and the second component of the result
is the registry contents after the call.  Field normalization follows the
source exactly: `description if description else ""`,
`valid_from if valid_from else None` (and likewise `valid_to`),
`replaces if replaces else []` (and likewise `replaced_by`),
`groups if groups else []`.  Then `is_valid` runs; a raised error
propagates before the `_registry.append(self)` at line 222, leaving the
registry unchanged; on success the new object is appended. -/
def mkProduksjonskode (registry : List Produksjonskode)
    (code : String) (label : String) (groups : PyVal) (measured_in : String)
    (description : Option String) (valid_from : Option String)
    (valid_to : Option String) (replaces : Option (List String))
    (replaced_by : Option (List String)) :
    Except PyError Produksjonskode × List Produksjonskode :=
  let groups0 := if pyTruthy groups then groups else PyVal.listV []
  match is_valid code groups0 measured_in with
  | .error e => (.error e, registry)
  | .ok gs =>
      let k : Produksjonskode :=
        { code := code
          label := label
          description :=
            match description with
            | some s => if s.isEmpty then "" else s
            | none => ""
          valid_from :=
            match valid_from with
            | some s => if s.isEmpty then none else some s
            | none => none
          valid_to :=
            match valid_to with
            | some s => if s.isEmpty then none else some s
            | none => none
          replaces :=
            match replaces with
            | some l => if l.isEmpty then [] else l
            | none => []
          replaced_by :=
            match replaced_by with
            | some l => if l.isEmpty then [] else l
            | none => []
          groups := gs
          measured_in := measured_in }
      (.ok k, registry ++ [k])

/-- Code-point comparison of char lists: the lexicographic order Python
uses to compare strings, written as plain structural recursion so that it
evaluates by kernel reduction. -/
def listLtChar : List Char → List Char → Bool
  | [], [] => false
  | [], _ :: _ => true
  | _ :: _, [] => false
  | c :: cs, d :: ds =>
      if c.toNat < d.toNat then true
      else if d.toNat < c.toNat then false
      else listLtChar cs ds

/-- Python string comparison `a < b`: lexicographic by code point. -/
def pyStrLt (a b : String) : Bool :=
  listLtChar a.toList b.toList

/-- Insertion into an ascending duplicate-free list, keeping it ascending
and duplicate-free. -/
def insertSortedDedup (s : String) : List String → List String
  | [] => [s]
  | t :: ts =>
      if pyStrLt s t then s :: t :: ts
      else if pyStrLt t s then t :: insertSortedDedup s ts
      else t :: ts

/-- Models the Python expression `list(sorted(set(l)))`: the ascending
(by code point, case-sensitive) list of the distinct elements of `l`.
The Python implementation materializes the set first and then sorts; the
result list is the same. -/
def pySortedSet (l : List String) : List String :=
  l.foldr insertSortedDedup []

/-- The fields of a `Produksjonstilskudd` object, lines 20–33.
`self.codes` is assigned the registry list object itself (line 27, no
copy), so the field here holds the registry contents *currently observed
through that alias*; `self.categories` is a fresh list computed at
construction time. -/
structure Produksjonstilskudd where
  codes : List Produksjonskode
  categories : List String

/-- Lines 20–33, `Produksjonstilskudd.__init__`, reading a registry whose
contents are `registry`: stores the (aliased) registry as `codes` and
computes `categories = list(sorted(set))` of all group tags of all codes. -/
def mkProduksjonstilskudd (registry : List Produksjonskode) :
    Produksjonstilskudd :=
  { codes := registry
    categories := pySortedSet (registry.flatMap (fun k => k.groups)) }

/-- Models the effect, on an already-constructed `Produksjonstilskudd`, of
a later `Produksjonskode` registration: because line 27 assigns the
class-level `_registry` list object itself to `self.codes` (not a copy),
the `_registry.append(self)` performed by `Produksjonskode.__init__`
(line 222) is visible through `self.codes` of the existing instance,
while its `self.categories` is a fresh list computed at construction time
and therefore unaffected. -/
def registerAfter (pt : Produksjonstilskudd) (k : Produksjonskode) :
    Produksjonstilskudd :=
  { codes := pt.codes ++ [k]
    categories := pt.categories }

/-- Lines 35–45, static method `_add_prefix`: prepend the literal `pk_`
to every code string. -/
def add_pk (list_containing_codes : List String) : List String :=
  list_containing_codes.map (fun x => "pk_" ++ x)

/-- The runtime shapes of the `categories` argument of `get_codes`:
absent/None, a single string, a list of Python values, or any other
Python value (which `get_codes` rejects with a TypeError). -/
inductive Selector where
  | noneS
  | strS (s : String)
  | listS (l : List PyVal)
  | otherS (v : PyVal)

/-- Lines 74–81 of `get_codes`: `None` is replaced by `self.categories`,
a string is wrapped in a singleton list, a list is used as given, and any
other value raises a TypeError naming its type. -/
def resolveSelector (pt : Produksjonstilskudd) :
    Selector → Except PyError (List PyVal)
  | .noneS => .ok (pt.categories.map PyVal.str)
  | .strS s => .ok [PyVal.str s]
  | .listS l => .ok l
  | .otherS v => .error (.invalidCategoriesType v)

/-- Lines 47–95, `Produksjonstilskudd.get_codes`.  The `prefix` flag is
modelled as a `Bool` (its `isinstance(prefix, bool)` guard at line 72 can
then never fail and is dropped).  A code is kept when any of its groups
occurs in the resolved selector list (line 87); the kept codes' code
strings are returned, prefixed with `pk_` when requested. -/
def Produksjonstilskudd.get_codes (pt : Produksjonstilskudd)
    (categories : Selector) (pfx : Bool) : Except PyError (List String) :=
  match resolveSelector pt categories with
  | .error e => .error e
  | .ok cats =>
      let relevant_codes :=
        pt.codes.filter (fun c => c.groups.any (fun g => cats.any (pyEqStr g)))
      let list_of_codes := relevant_codes.map (fun c => c.code)
      .ok (if pfx then add_pk list_of_codes else list_of_codes)

/-- Lines 97–135, `Produksjonstilskudd.get_codes_by_measurement`: raises
for a measurement unit outside `VALID_MEASUREMENT_UNITS` (regardless of
the catalog contents), otherwise returns the code strings of the codes
whose `measured_in` equals the unit, prefixed with `pk_` when requested.
As in `get_codes`, the boolean `prefix` flag is modelled as `Bool`. -/
def Produksjonstilskudd.get_codes_by_measurement (pt : Produksjonstilskudd)
    (measurement : String) (pfx : Bool) : Except PyError (List String) :=
  if measurement ∈ VALID_MEASUREMENT_UNITS then
    let relevant_codes :=
      pt.codes.filter (fun c => decide (c.measured_in = measurement))
    let list_of_codes := relevant_codes.map (fun c => c.code)
    .ok (if pfx then add_pk list_of_codes else list_of_codes)
  else
    .error (.invalidMeasurementUnit measurement)

/-- The list returned by a query, or `[]` if the query raised. -/
def okList (r : Except PyError (List String)) : List String :=
  match r with
  | .ok l => l
  | .error _ => []

/-- The error raised by a construction, or `none` if it succeeded. -/
def errorOf {α : Type} (r : Except PyError α) : Option PyError :=
  match r with
  | .ok _ => none
  | .error e => some e

/-- Follows the wording of claim C3, as amended: the four validation
checks in the claimed order — code format, groups is a list, all group
elements are strings, measurement unit in the fixed vocabulary — with
only the first failing check producing an error, stated over the groups
value after the constructor's falsy-to-empty-list normalization. -/
def claimedValidationError (code : String) (groups0 : PyVal)
    (measured_in : String) : Option PyError :=
  if fullmatch3 code = false then some (.invalidCode code)
  else
    match groups0 with
    | .listV xs =>
        if (xs.filter (fun v => !v.isStr)).isEmpty then
          if measured_in ∈ VALID_MEASUREMENT_UNITS then none
          else some (.invalidMeasurementUnit measured_in)
        else some (.invalidGroupValues (xs.filter (fun v => !v.isStr)))
    | g => some (.invalidGroupsType g)

/-- Fixture: a code in group `frukt`, measured in `kilo`. -/
def kA : Produksjonskode :=
  { code := "001", label := "Epler", description := "", valid_from := none,
    valid_to := none, replaces := [], replaced_by := [], groups := ["frukt"],
    measured_in := "kilo" }

/-- Fixture: a second code in group `frukt`, measured in `kilo`. -/
def kB : Produksjonskode :=
  { code := "002", label := "Paerer", description := "", valid_from := none,
    valid_to := none, replaces := [], replaced_by := [], groups := ["frukt"],
    measured_in := "kilo" }

/-- Fixture: a code in group `storfe`, measured in `antall`. -/
def kC : Produksjonskode :=
  { code := "101", label := "Melkeku", description := "", valid_from := none,
    valid_to := none, replaces := [], replaced_by := [], groups := ["storfe"],
    measured_in := "antall" }

/-- Fixture: a validly constructed code whose groups list is empty. -/
def kE : Produksjonskode :=
  { code := "003", label := "Plommer", description := "", valid_from := none,
    valid_to := none, replaces := [], replaced_by := [], groups := [],
    measured_in := "kilo" }

/-- Fixture: the object produced by constructing a code with the falsy
non-list groups argument given in the C3 counterexample. -/
def pkC3 : Produksjonskode :=
  { code := "123", label := "L", description := "", valid_from := none,
    valid_to := none, replaces := [], replaced_by := [], groups := [],
    measured_in := "kilo" }

/-- The `Produksjonskode` object the constructor builds when called with
an empty groups list, a valid code and unit, and all optional arguments
absent. -/
def emptyGroupsCode (code label measured_in : String) : Produksjonskode :=
  { code := code, label := label, description := "", valid_from := none,
    valid_to := none, replaces := [], replaced_by := [], groups := [],
    measured_in := measured_in }

/-- A list never compares strictly below itself. -/
theorem listLtChar_irrefl (l : List Char) : listLtChar l l = false := by
  induction l with
  | nil => rfl
  | cons c cs ih => simp [listLtChar, ih]

/-- Code-point comparison is transitive. -/
theorem listLtChar_trans : ∀ {a b c : List Char},
    listLtChar a b = true → listLtChar b c = true → listLtChar a c = true := by
  intro a
  induction a with
  | nil =>
      intro b c hab hbc
      cases b with
      | nil => simp [listLtChar] at hab
      | cons y ys =>
          cases c with
          | nil => simp [listLtChar] at hbc
          | cons z zs => simp [listLtChar]
  | cons x xs ih =>
      intro b c hab hbc
      cases b with
      | nil => simp [listLtChar] at hab
      | cons y ys =>
          cases c with
          | nil => simp [listLtChar] at hbc
          | cons z zs =>
              simp only [listLtChar] at hab hbc ⊢
              by_cases h1 : x.toNat < y.toNat
              · by_cases h2 : y.toNat < z.toNat
                · simp [show x.toNat < z.toNat by omega]
                · by_cases h3 : z.toNat < y.toNat
                  · simp [h2, h3] at hbc
                  · simp [show x.toNat < z.toNat by omega]
              · by_cases h4 : y.toNat < x.toNat
                · simp [h1, h4] at hab
                · by_cases h2 : y.toNat < z.toNat
                  · simp [show x.toNat < z.toNat by omega]
                  · by_cases h3 : z.toNat < y.toNat
                    · simp [h2, h3] at hbc
                    · simp only [h1, h4, if_false] at hab
                      simp only [h2, h3, if_false] at hbc
                      simp [show ¬ x.toNat < z.toNat by omega,
                        show ¬ z.toNat < x.toNat by omega]
                      exact ih hab hbc

/-- Two lists neither of which compares below the other are equal. -/
theorem listLtChar_eq_of_not_lt : ∀ {a b : List Char},
    listLtChar a b = false → listLtChar b a = false → a = b := by
  intro a
  induction a with
  | nil =>
      intro b hab _
      cases b with
      | nil => rfl
      | cons y ys => simp [listLtChar] at hab
  | cons x xs ih =>
      intro b hab hba
      cases b with
      | nil => simp [listLtChar] at hba
      | cons y ys =>
          simp only [listLtChar] at hab hba
          by_cases hxy : x.toNat < y.toNat
          · simp [hxy] at hab
          · by_cases hyx : y.toNat < x.toNat
            · simp [hyx] at hba
            · have htn : x.toNat = y.toNat := by omega
              have hx : x = y := by
                apply Char.eq_of_val_eq
                apply UInt32.eq_of_toBitVec_eq
                apply BitVec.eq_of_toNat_eq
                exact htn
              simp only [hxy, hyx, if_false] at hab hba
              rw [hx, ih hab hba]

/-- Irreflexivity for strings. -/
theorem pyStrLt_irrefl (a : String) : pyStrLt a a = false :=
  listLtChar_irrefl a.toList

/-- Transitivity for strings. -/
theorem pyStrLt_trans {a b c : String} (hab : pyStrLt a b = true)
    (hbc : pyStrLt b c = true) : pyStrLt a c = true :=
  listLtChar_trans hab hbc

/-- Totality: strings neither of which compares below the other are equal. -/
theorem pyStrLt_eq_of_not_lt {a b : String} (hab : pyStrLt a b = false)
    (hba : pyStrLt b a = false) : a = b :=
  String.ext (listLtChar_eq_of_not_lt hab hba)

/-- Membership in `insertSortedDedup`. -/
theorem mem_insertSortedDedup (s a : String) : ∀ (l : List String),
    (a ∈ insertSortedDedup s l ↔ a = s ∨ a ∈ l) := by
  intro l
  induction l with
  | nil => simp [insertSortedDedup]
  | cons t ts ih =>
      by_cases h1 : pyStrLt s t = true
      · simp [insertSortedDedup, h1]
      · by_cases h2 : pyStrLt t s = true
        · simp only [insertSortedDedup, h1, h2, if_true, if_false,
            Bool.false_eq_true, List.mem_cons, ih]
          tauto
        · have hst : s = t :=
            pyStrLt_eq_of_not_lt (Bool.not_eq_true _ ▸ h1)
              (Bool.not_eq_true _ ▸ h2)
          subst hst
          simp only [insertSortedDedup, h1, h2, if_false, Bool.false_eq_true,
            List.mem_cons]
          tauto

/-- Inserting with `insertSortedDedup` preserves strict ascending
sortedness. -/
theorem pairwise_insertSortedDedup (s : String) : ∀ (l : List String),
    l.Pairwise (fun a b => pyStrLt a b = true) →
    (insertSortedDedup s l).Pairwise (fun a b => pyStrLt a b = true) := by
  intro l
  induction l with
  | nil =>
      intro _
      simp [insertSortedDedup]
  | cons t ts ih =>
      intro hl
      rcases List.pairwise_cons.mp hl with ⟨ht, hts⟩
      by_cases h1 : pyStrLt s t = true
      · simp only [insertSortedDedup, h1, if_true]
        refine List.pairwise_cons.mpr ⟨?_, hl⟩
        intro b hb
        rcases List.mem_cons.mp hb with rfl | hb2
        · exact h1
        · exact pyStrLt_trans h1 (ht b hb2)
      · by_cases h2 : pyStrLt t s = true
        · simp only [insertSortedDedup, h1, h2, if_true, if_false,
            Bool.false_eq_true]
          refine List.pairwise_cons.mpr ⟨?_, ih hts⟩
          intro b hb
          rcases (mem_insertSortedDedup s b ts).mp hb with rfl | hb2
          · exact h2
          · exact ht b hb2
        · have hst : s = t :=
            pyStrLt_eq_of_not_lt (Bool.not_eq_true _ ▸ h1)
              (Bool.not_eq_true _ ▸ h2)
          subst hst
          simp only [insertSortedDedup, h1, h2, if_false, Bool.false_eq_true]
          exact hl

/-- Membership in `pySortedSet`: exactly the elements of the input. -/
theorem mem_pySortedSet (a : String) : ∀ (l : List String),
    (a ∈ pySortedSet l ↔ a ∈ l) := by
  intro l
  induction l with
  | nil => simp [pySortedSet]
  | cons t ts ih =>
      show a ∈ insertSortedDedup t (pySortedSet ts) ↔ _
      rw [mem_insertSortedDedup]
      simp [ih]

/-- The result of `pySortedSet` is strictly ascending by code point. -/
theorem pairwise_pySortedSet : ∀ (l : List String),
    (pySortedSet l).Pairwise (fun a b => pyStrLt a b = true) := by
  intro l
  induction l with
  | nil => simp [pySortedSet]
  | cons t ts ih => exact pairwise_insertSortedDedup t (pySortedSet ts) ih

/-- The result of `pySortedSet` has no duplicate elements. -/
theorem nodup_pySortedSet (l : List String) : (pySortedSet l).Nodup := by
  refine (pairwise_pySortedSet l).imp ?_
  intro a b hab heq
  subst heq
  rw [pyStrLt_irrefl] at hab
  exact Bool.false_ne_true hab

/-- The test `pyEqStr g` accepts exactly the value `PyVal.str g`. -/
theorem pyEqStr_eq_true_iff (g : String) (v : PyVal) :
    pyEqStr g v = true ↔ v = PyVal.str g := by
  cases v with
  | str t =>
      simp only [pyEqStr, beq_iff_eq, PyVal.str.injEq]
      exact eq_comm
  | intV n => simp [pyEqStr]
  | boolV b => simp [pyEqStr]
  | noneV => simp [pyEqStr]
  | listV xs => simp [pyEqStr]

/-- The Python test `g in categories`, where the right-hand side holds
the strings of `l`, holds exactly when `g` is one of them. -/
theorem any_pyEqStr_iff (g : String) (l : List String) :
    ((l.map PyVal.str).any (pyEqStr g) = true) ↔ g ∈ l := by
  simp [List.any_eq_true, pyEqStr_eq_true_iff]

/-- A string is a category of the constructed catalog exactly when it is
a group tag of one of the registered codes. -/
theorem mem_categories (registry : List Produksjonskode) (s : String) :
    s ∈ (mkProduksjonstilskudd registry).categories ↔
      ∃ k ∈ registry, s ∈ k.groups := by
  simp [mkProduksjonstilskudd, mem_pySortedSet, List.mem_flatMap]

/-- A `flatMap` only depends on the values the function takes on the
list. -/
theorem flatMapCongrMem {α β : Type} (l : List α) {f g : α → List β}
    (h : ∀ a ∈ l, f a = g a) : l.flatMap f = l.flatMap g := by
  induction l with
  | nil => rfl
  | cons a t ih =>
      simp only [List.flatMap_cons]
      rw [h a (List.mem_cons_self a t), ih (fun x hx => h x (List.mem_cons_of_mem a hx))]

/-- For a registered code, the `get_codes` group test against the full
category list of its own catalog succeeds exactly when the code has at
least one group. -/
theorem any_groups_in_categories (registry : List Produksjonskode)
    (c : Produksjonskode) (hc : c ∈ registry) :
    (c.groups.any (fun g =>
        (((mkProduksjonstilskudd registry).categories.map PyVal.str).any
          (pyEqStr g)))) = !c.groups.isEmpty := by
  cases hg : c.groups with
  | nil => simp
  | cons a as =>
      simp only [List.isEmpty_cons, Bool.not_false]
      apply List.any_eq_true.mpr
      refine ⟨a, List.mem_cons_self a as, ?_⟩
      apply (any_pyEqStr_iff a _).mpr
      apply (mem_categories registry a).mpr
      exact ⟨c, hc, by rw [hg]; exact List.mem_cons_self a as⟩

/-- Claim C1 (amended): `get_codes` with no selector returns exactly the
code strings of the registered codes whose groups list is nonempty, one
entry per such code in registration order (prefixed when requested);
codes with an empty groups list are omitted. -/
theorem getCodes_no_selector_nonempty_groups (registry : List Produksjonskode)
    (pfx : Bool) :
    (mkProduksjonstilskudd registry).get_codes Selector.noneS pfx
      = .ok (if pfx
          then add_pk ((registry.filter (fun k => !k.groups.isEmpty)).map
            (fun k => k.code))
          else (registry.filter (fun k => !k.groups.isEmpty)).map
            (fun k => k.code)) := by
  have hfil : (mkProduksjonstilskudd registry).codes.filter
      (fun c => c.groups.any (fun g =>
        (((mkProduksjonstilskudd registry).categories.map PyVal.str).any
          (pyEqStr g))))
      = registry.filter (fun k => !k.groups.isEmpty) :=
    List.filter_congr (fun c hc => any_groups_in_categories registry c hc)
  simp only [Produksjonstilskudd.get_codes, resolveSelector]
  rw [hfil]

/-- Claim C1 counterexample: the catalog built from a registry holding a
single code with an empty groups list has that code registered, yet the
no-selector `get_codes()` call returns the empty list, omitting it. -/
theorem getCodes_no_selector_omits_kE :
    (mkProduksjonstilskudd [kE]).codes = [kE]
    ∧ kE.code = "003"
    ∧ (mkProduksjonstilskudd [kE]).get_codes Selector.noneS false = .ok [] :=
  ⟨rfl, rfl, rfl⟩

/-- The error produced by `is_valid` is exactly the first failing check
of the claimed order. -/
theorem is_valid_eq_claimed (code : String) (groups0 : PyVal) (mu : String) :
    errorOf (is_valid code groups0 mu) = claimedValidationError code groups0 mu := by
  unfold is_valid claimedValidationError errorOf
  cases h1 : fullmatch3 code
  · simp [h1]
  · cases groups0 with
    | listV xs =>
        by_cases h2 : (xs.filter (fun v => !v.isStr)).isEmpty = true
        · by_cases h3 : mu ∈ VALID_MEASUREMENT_UNITS
          · simp [h1, h2, h3]
          · simp [h1, h2, h3]
        · simp [h1, h2]
    | str s => simp [h1]
    | intV n => simp [h1]
    | boolV b => simp [h1]
    | noneV => simp [h1]

/-- Claim C3 (amended): for every constructor input, the error raised
(if any) is the first failing check, in the claimed order — code format,
groups is a list, all group elements are strings, unit in the fixed
vocabulary — applied to the groups value after the constructor replaces
a falsy groups argument by the empty list. -/
theorem validation_follows_claimed_order (registry : List Produksjonskode)
    (code label : String) (groups : PyVal) (measured_in : String)
    (description valid_from valid_to : Option String)
    (replaces replaced_by : Option (List String)) :
    errorOf (mkProduksjonskode registry code label groups measured_in
        description valid_from valid_to replaces replaced_by).1
      = claimedValidationError code
          (if pyTruthy groups then groups else PyVal.listV []) measured_in := by
  rw [← is_valid_eq_claimed]
  unfold mkProduksjonskode
  cases h : is_valid code (if pyTruthy groups then groups else PyVal.listV [])
      measured_in with
  | error e => simp [h, errorOf]
  | ok gs => simp [h, errorOf]

/-- Claim C3 counterexample: constructing with `groups` set to the empty
string — a falsy value that is not a list — succeeds instead of raising
the claimed type error. -/
theorem falsy_groups_accepted :
    (PyVal.str "").isList = false
    ∧ mkProduksjonskode [] "123" "L" (PyVal.str "") "kilo"
        none none none none none = (.ok pkC3, [pkC3]) :=
  ⟨rfl, rfl⟩

/-- Claim C4: the constructor is atomic with respect to the registry: on
a validation error the registry is returned unchanged, on success
exactly the new code is appended to its end. -/
theorem constructor_atomic_registry (registry : List Produksjonskode)
    (code label : String) (groups : PyVal) (measured_in : String)
    (description valid_from valid_to : Option String)
    (replaces replaced_by : Option (List String)) :
    (mkProduksjonskode registry code label groups measured_in description
        valid_from valid_to replaces replaced_by).2
      = match (mkProduksjonskode registry code label groups measured_in
          description valid_from valid_to replaces replaced_by).1 with
        | .error _ => registry
        | .ok k => registry ++ [k] := by
  unfold mkProduksjonskode
  cases h : is_valid code (if pyTruthy groups then groups else PyVal.listV [])
      measured_in with
  | error e => simp [h]
  | ok gs => simp [h]

/-- Claim C5: `get_codes_by_measurement` raises exactly when the unit is
outside the fixed vocabulary, independently of the catalog contents (so
a valid unused unit returns normally, possibly with an empty list); when
it returns, the result is the code strings of the codes whose
`measured_in` equals the unit, prefixed when requested. -/
theorem getCodesByMeasurement_spec (pt : Produksjonstilskudd)
    (measurement : String) (pfx : Bool) :
    ((∃ e, pt.get_codes_by_measurement measurement pfx = .error e)
        ↔ measurement ∉ VALID_MEASUREMENT_UNITS)
    ∧ (∀ l, pt.get_codes_by_measurement measurement pfx = .ok l →
        l = (if pfx
            then add_pk ((pt.codes.filter
              (fun c => decide (c.measured_in = measurement))).map
              (fun c => c.code))
            else (pt.codes.filter
              (fun c => decide (c.measured_in = measurement))).map
              (fun c => c.code))) := by
  by_cases h : measurement ∈ VALID_MEASUREMENT_UNITS
  · constructor
    · simp [Produksjonstilskudd.get_codes_by_measurement, h]
    · intro l hl
      simp only [Produksjonstilskudd.get_codes_by_measurement, if_pos h,
        Except.ok.injEq] at hl
      exact hl.symm
  · constructor
    · simp [Produksjonstilskudd.get_codes_by_measurement, h]
    · intro l hl
      simp [Produksjonstilskudd.get_codes_by_measurement, h] at hl

/-- Claim C5 witness: on a concrete one-code catalog, the theorem yields
that the valid but unused unit `dekar` does not raise. -/
theorem getCodesByMeasurement_spec_wit :
    ¬ ∃ e, (mkProduksjonstilskudd [kA]).get_codes_by_measurement "dekar" false
        = .error e := by
  intro hex
  have h := (getCodesByMeasurement_spec (mkProduksjonstilskudd [kA])
    "dekar" false).1.mp hex
  exact h (by decide)

/-- Claim C6: a single string selector is equivalent to the singleton
list selector, for both values of the prefix flag. -/
theorem selector_string_singleton_equiv (pt : Produksjonstilskudd)
    (X : String) (pfx : Bool) :
    pt.get_codes (Selector.strS X) pfx
      = pt.get_codes (Selector.listS [PyVal.str X]) pfx := rfl

/-- Claim C7: with the prefix flag set, both queries return the
element-wise `pk_`-prefixed version of their unprefixed result: the same
length, and entry `i` equal to `pk_` concatenated with unprefixed entry
`i`. -/
theorem prefixed_queries_are_map_pk (pt : Produksjonstilskudd)
    (sel : Selector) (measurement : String) :
    pt.get_codes sel true
        = (pt.get_codes sel false).map (fun l => l.map (fun s => "pk_" ++ s))
    ∧ pt.get_codes_by_measurement measurement true
        = (pt.get_codes_by_measurement measurement false).map
            (fun l => l.map (fun s => "pk_" ++ s)) := by
  constructor
  · unfold Produksjonstilskudd.get_codes
    cases resolveSelector pt sel with
    | error e => rfl
    | ok cats => simp [add_pk, Except.map]
  · unfold Produksjonstilskudd.get_codes_by_measurement
    by_cases h : measurement ∈ VALID_MEASUREMENT_UNITS
    · simp [h, add_pk, Except.map]
    · simp [h, Except.map]

/-- Distributing a code list over a duplicate-free unit list that covers
every code's unit, by filtering on each unit and concatenating, permutes
the code list. -/
theorem units_filter_perm : ∀ (l : List Produksjonskode) (us : List String),
    us.Nodup → (∀ k ∈ l, k.measured_in ∈ us) →
    (us.flatMap (fun u => (l.filter (fun k => decide (k.measured_in = u))).map
      (fun k => k.code))).Perm (l.map (fun k => k.code)) := by
  intro l
  induction l with
  | nil =>
      intro us _ _
      simp
  | cons k t ih =>
      intro us hnd h
      have hk : k.measured_in ∈ us := h k (List.mem_cons_self k t)
      obtain ⟨us₁, us₂, rfl⟩ := List.append_of_mem hk
      have hnd' := hnd
      rw [List.nodup_append] at hnd'
      obtain ⟨hn1, hn2, hdisj⟩ := hnd'
      have hmi1 : k.measured_in ∉ us₁ :=
        fun hmem => hdisj hmem (List.mem_cons_self _ _)
      have hmi2 : k.measured_in ∉ us₂ := (List.nodup_cons.mp hn2).1
      have hcons : ∀ u, ¬ (k.measured_in = u) →
          ((k :: t).filter (fun x => decide (x.measured_in = u))).map
            (fun x => x.code)
          = (t.filter (fun x => decide (x.measured_in = u))).map
            (fun x => x.code) := by
        intro u hu
        rw [List.filter_cons]
        simp [hu]
      have h1 : us₁.flatMap (fun u =>
            ((k :: t).filter (fun x => decide (x.measured_in = u))).map
              (fun x => x.code))
          = us₁.flatMap (fun u =>
            (t.filter (fun x => decide (x.measured_in = u))).map
              (fun x => x.code)) :=
        flatMapCongrMem us₁
          (fun u hu => hcons u (fun he => hmi1 (by rw [he]; exact hu)))
      have h2 : us₂.flatMap (fun u =>
            ((k :: t).filter (fun x => decide (x.measured_in = u))).map
              (fun x => x.code))
          = us₂.flatMap (fun u =>
            (t.filter (fun x => decide (x.measured_in = u))).map
              (fun x => x.code)) :=
        flatMapCongrMem us₂
          (fun u hu => hcons u (fun he => hmi2 (by rw [he]; exact hu)))
      have h3 : ((k :: t).filter
            (fun x => decide (x.measured_in = k.measured_in))).map
            (fun x => x.code)
          = k.code :: (t.filter
            (fun x => decide (x.measured_in = k.measured_in))).map
            (fun x => x.code) := by
        rw [List.filter_cons]
        simp
      rw [List.flatMap_append, List.flatMap_cons, h1, h2, h3, List.map_cons,
        List.cons_append]
      refine (List.perm_middle).trans ?_
      apply List.Perm.cons
      have hrec := ih (us₁ ++ k.measured_in :: us₂) hnd
        (fun x hx => h x (List.mem_cons_of_mem k hx))
      rw [List.flatMap_append, List.flatMap_cons] at hrec
      exact hrec

/-- Claim C8: `get_codes_by_measurement` returns only codes whose stored
`measured_in` equals the requested unit, and — under the constructor
invariant that every registered code's unit is in the vocabulary — the
concatenation of its results over the four units of the vocabulary is a
permutation of the catalog's full code list: every code covered exactly
once, no overlap. -/
theorem measurement_queries_partition (pt : Produksjonstilskudd)
    (h : ∀ k ∈ pt.codes, k.measured_in ∈ VALID_MEASUREMENT_UNITS) :
    (∀ u l, pt.get_codes_by_measurement u false = .ok l →
        ∀ s ∈ l, ∃ k, k ∈ pt.codes ∧ k.code = s ∧ k.measured_in = u)
    ∧ (VALID_MEASUREMENT_UNITS.flatMap
        (fun u => okList (pt.get_codes_by_measurement u false))).Perm
          (pt.codes.map (fun k => k.code)) := by
  constructor
  · intro u l hl s hs
    by_cases hu : u ∈ VALID_MEASUREMENT_UNITS
    · have heq : pt.get_codes_by_measurement u false
          = .ok ((pt.codes.filter (fun c => decide (c.measured_in = u))).map
            (fun c => c.code)) := by
        simp [Produksjonstilskudd.get_codes_by_measurement, hu]
      rw [heq] at hl
      simp only [Except.ok.injEq] at hl
      subst hl
      obtain ⟨k, hkf, rfl⟩ := List.mem_map.mp hs
      obtain ⟨hkm, hkd⟩ := List.mem_filter.mp hkf
      exact ⟨k, hkm, rfl, of_decide_eq_true hkd⟩
    · simp [Produksjonstilskudd.get_codes_by_measurement, hu] at hl
  · have hrw : ∀ u ∈ VALID_MEASUREMENT_UNITS,
        okList (pt.get_codes_by_measurement u false)
          = (pt.codes.filter (fun k => decide (k.measured_in = u))).map
            (fun k => k.code) := by
      intro u hu
      simp [Produksjonstilskudd.get_codes_by_measurement, hu, okList]
    rw [flatMapCongrMem VALID_MEASUREMENT_UNITS hrw]
    exact units_filter_perm pt.codes VALID_MEASUREMENT_UNITS (by decide) h

/-- Claim C8 witness: the partition property evaluated on a concrete
two-code catalog with units `antall` and `kilo`. -/
theorem measurement_queries_partition_wit :
    (VALID_MEASUREMENT_UNITS.flatMap
        (fun u => okList ((mkProduksjonstilskudd [kC, kA]).get_codes_by_measurement
          u false))).Perm
      ((mkProduksjonstilskudd [kC, kA]).codes.map (fun k => k.code)) :=
  (measurement_queries_partition (mkProduksjonstilskudd [kC, kA]) (by decide)).2

/-- Claim C9: the categories attribute computed at construction is the
ascending (by code point, hence case-sensitive) list of the distinct
group tags over all registered codes: strictly sorted, duplicate-free,
and containing exactly the strings occurring in some code's groups — an
empty-string tag included like any other. -/
theorem categories_sorted_distinct (registry : List Produksjonskode) :
    (mkProduksjonstilskudd registry).categories.Pairwise
        (fun a b => pyStrLt a b = true)
    ∧ (mkProduksjonstilskudd registry).categories.Nodup
    ∧ ∀ s, (s ∈ (mkProduksjonstilskudd registry).categories ↔
        ∃ k ∈ registry, s ∈ k.groups) :=
  ⟨pairwise_pySortedSet _, nodup_pySortedSet _,
    fun s => mem_categories registry s⟩

/-- Claim C2 (amended): a catalog is a live view of the registry, not a
snapshot: `self.codes` aliases the registry list, so a code registered
after the catalog was built is included in the existing instance's
`get_codes_by_measurement` result for its unit, and in its `get_codes`
result whenever one of the new code's groups is among the instance's
construction-time categories; only the `categories` attribute is a
construction-time snapshot. -/
theorem catalog_is_live_view (registry : List Produksjonskode)
    (k : Produksjonskode) (hu : k.measured_in ∈ VALID_MEASUREMENT_UNITS) :
    (∀ l, (registerAfter (mkProduksjonstilskudd registry) k).get_codes_by_measurement
        k.measured_in false = .ok l → k.code ∈ l)
    ∧ ((∃ g ∈ k.groups, g ∈ (mkProduksjonstilskudd registry).categories) →
       ∀ l, (registerAfter (mkProduksjonstilskudd registry) k).get_codes
         Selector.noneS false = .ok l → k.code ∈ l) := by
  constructor
  · intro l hl
    have heq : (registerAfter (mkProduksjonstilskudd registry) k).get_codes_by_measurement
        k.measured_in false
        = .ok ((((mkProduksjonstilskudd registry).codes ++ [k]).filter
            (fun c => decide (c.measured_in = k.measured_in))).map
            (fun c => c.code)) := by
      simp [Produksjonstilskudd.get_codes_by_measurement, registerAfter, hu]
    rw [heq] at hl
    simp only [Except.ok.injEq] at hl
    subst hl
    apply List.mem_map.mpr
    refine ⟨k, List.mem_filter.mpr ⟨List.mem_append_right _ ?_, by simp⟩, rfl⟩
    exact List.mem_singleton_self k
  · intro hg l hl
    have heq : (registerAfter (mkProduksjonstilskudd registry) k).get_codes
        Selector.noneS false
        = .ok ((((mkProduksjonstilskudd registry).codes ++ [k]).filter
            (fun c => c.groups.any (fun g =>
              (((mkProduksjonstilskudd registry).categories.map PyVal.str).any
                (pyEqStr g))))).map (fun c => c.code)) := by
      simp [Produksjonstilskudd.get_codes, resolveSelector, registerAfter]
    rw [heq] at hl
    simp only [Except.ok.injEq] at hl
    subst hl
    obtain ⟨g, hgk, hgc⟩ := hg
    apply List.mem_map.mpr
    refine ⟨k, List.mem_filter.mpr ⟨List.mem_append_right _
      (List.mem_singleton_self k), ?_⟩, rfl⟩
    apply List.any_eq_true.mpr
    exact ⟨g, hgk, (any_pyEqStr_iff g _).mpr hgc⟩

/-- Claim C2 counterexample: with a catalog built from a one-code
registry, a second code constructed afterwards (successfully, through
the constructor) appears in the existing instance's no-selector
`get_codes()` result and in its `get_codes_by_measurement` result,
because line 27 stores the registry list itself, not a copy. -/
theorem late_registration_visible :
    mkProduksjonskode [kA] "002" "Paerer" (PyVal.listV [PyVal.str "frukt"])
        "kilo" none none none none none = (.ok kB, [kA, kB])
    ∧ (registerAfter (mkProduksjonstilskudd [kA]) kB).get_codes
        Selector.noneS false = .ok ["001", "002"]
    ∧ (registerAfter (mkProduksjonstilskudd [kA]) kB).get_codes_by_measurement
        "kilo" false = .ok ["001", "002"] :=
  ⟨rfl, rfl, rfl⟩

/-- Claim C2 (amended) witness: the live-view theorem instantiated on the
concrete two-code scenario. -/
theorem catalog_is_live_view_wit :
    "002" ∈ okList ((registerAfter (mkProduksjonstilskudd [kA]) kB).get_codes_by_measurement
        "kilo" false)
    ∧ "002" ∈ okList ((registerAfter (mkProduksjonstilskudd [kA]) kB).get_codes
        Selector.noneS false) := by
  constructor
  · exact (catalog_is_live_view [kA] kB (by decide)).1 ["001", "002"] rfl
  · exact (catalog_is_live_view [kA] kB (by decide)).2 (by decide)
      ["001", "002"] rfl

/-- Claim C10: a code constructed with an empty groups list (and a valid
code string and unit) is successfully registered and counted — it is
appended to the registry, contributes to the code count, and
`get_codes_by_measurement` returns it for its unit — yet `get_codes`
never returns it for any selector value: appending it to the registry
leaves every `get_codes` result, including the default no-selector call,
unchanged. -/
theorem empty_groups_registered_but_invisible
    (registry : List Produksjonskode) (code label measured_in : String)
    (hc : fullmatch3 code = true)
    (hmu : measured_in ∈ VALID_MEASUREMENT_UNITS) :
    mkProduksjonskode registry code label (PyVal.listV []) measured_in
        none none none none none
      = (.ok (emptyGroupsCode code label measured_in),
         registry ++ [emptyGroupsCode code label measured_in])
    ∧ (emptyGroupsCode code label measured_in).groups = []
    ∧ (mkProduksjonstilskudd
        (registry ++ [emptyGroupsCode code label measured_in])).codes.length
      = registry.length + 1
    ∧ (∀ l, (mkProduksjonstilskudd
          (registry ++ [emptyGroupsCode code label measured_in])).get_codes_by_measurement
          measured_in false = .ok l → code ∈ l)
    ∧ (∀ sel pfx, (mkProduksjonstilskudd
          (registry ++ [emptyGroupsCode code label measured_in])).get_codes sel pfx
        = (mkProduksjonstilskudd registry).get_codes sel pfx) := by
  refine ⟨?_, rfl, by simp [mkProduksjonstilskudd], ?_, ?_⟩
  · simp [mkProduksjonskode, is_valid, hc, hmu, pyTruthy, emptyGroupsCode]
  · intro l hl
    have heq : (mkProduksjonstilskudd
          (registry ++ [emptyGroupsCode code label measured_in])).get_codes_by_measurement
          measured_in false
        = .ok (((registry ++ [emptyGroupsCode code label measured_in]).filter
            (fun c => decide (c.measured_in = measured_in))).map
            (fun c => c.code)) := by
      simp [Produksjonstilskudd.get_codes_by_measurement, hmu,
        mkProduksjonstilskudd]
    rw [heq] at hl
    simp only [Except.ok.injEq] at hl
    subst hl
    apply List.mem_map.mpr
    refine ⟨emptyGroupsCode code label measured_in,
      List.mem_filter.mpr ⟨List.mem_append_right _
        (List.mem_singleton_self _), by simp [emptyGroupsCode]⟩, rfl⟩
  · have hflat : (registry ++ [emptyGroupsCode code label measured_in]).flatMap
        (fun c => c.groups) = registry.flatMap (fun c => c.groups) := by
      rw [List.flatMap_append]
      simp [emptyGroupsCode]
    have hcats : (mkProduksjonstilskudd
          (registry ++ [emptyGroupsCode code label measured_in])).categories
        = (mkProduksjonstilskudd registry).categories := by
      simp only [mkProduksjonstilskudd]
      rw [hflat]
    have hcodes1 : (mkProduksjonstilskudd
          (registry ++ [emptyGroupsCode code label measured_in])).codes
        = registry ++ [emptyGroupsCode code label measured_in] := rfl
    have hcodes2 : (mkProduksjonstilskudd registry).codes = registry := rfl
    have hfil : ∀ (cats : List PyVal),
        ((registry ++ [emptyGroupsCode code label measured_in]).filter
          (fun c => c.groups.any (fun g => cats.any (pyEqStr g))))
        = registry.filter
          (fun c => c.groups.any (fun g => cats.any (pyEqStr g))) := by
      intro cats
      rw [List.filter_append]
      simp [emptyGroupsCode]
    intro sel pfx
    cases sel with
    | noneS =>
        simp only [Produksjonstilskudd.get_codes, resolveSelector]
        rw [hcats, hcodes1, hcodes2, hfil]
    | strS s =>
        simp only [Produksjonstilskudd.get_codes, resolveSelector]
        rw [hcodes1, hcodes2, hfil]
    | listS L =>
        simp only [Produksjonstilskudd.get_codes, resolveSelector]
        rw [hcodes1, hcodes2, hfil]
    | otherS v => rfl

/-- Claim C10 witness: instantiated at a concrete empty-groups
construction on the empty registry. -/
theorem empty_groups_registered_but_invisible_wit :
    mkProduksjonskode [] "003" "Plommer" (PyVal.listV []) "kilo"
        none none none none none = (.ok kE, [kE])
    ∧ "003" ∈ okList ((mkProduksjonstilskudd [kE]).get_codes_by_measurement
        "kilo" false) := by
  have h := empty_groups_registered_but_invisible [] "003" "Plommer" "kilo"
    (by decide) (by decide)
  exact ⟨h.1, h.2.2.2.1 ["003"] rfl⟩
